import Mathlib

/-!
Verification development for the genvoy MCP server's orchestration core:
the fal.ai queue client (SSE stream with polling fallback), the safe
path-resolution / download layer, and the result-extraction helpers.

Python values flowing through the orchestration are JSON-like; we embed
them as the `Json` inductive below.  Rationals stand in for Python
numbers (ints and floats), so arithmetic is exact.  `json.loads` of the
Python standard library is abstracted as a `decode : String → Option Json`
parameter (a `none` result models `json.JSONDecodeError`).  CPython
represents JSON `null` as `None`, so `pyGet` collapses a present `null`
field to `none`, matching `dict.get` semantics as seen by the code.

String primitives used by the code (`upper`, `strip`, `startswith`, …)
are embedded as character-list operations so that closed instances reduce
by `rfl`/`decide`; statuses and keys are ASCII throughout.
-/

/-! ## String helpers with Python semantics -/

/-- Python whitespace, as stripped by `str.strip`/`str.lstrip`. -/
def isPySpace (c : Char) : Bool :=
  c = ' ' || c = '\t' || c = '\n' || c = '\r' || c = '\x0b' || c = '\x0c'

/-- ASCII uppercasing of one character (`str.upper`; all strings compared
against status words are ASCII). -/
def upChar (c : Char) : Char :=
  if 'a' ≤ c && c ≤ 'z' then Char.ofNat (c.toNat - 32) else c

/-- `str.upper`. -/
def pyUpper (s : String) : String := ⟨s.data.map upChar⟩

/-- `str.lower`. -/
def lowChar (c : Char) : Char :=
  if 'A' ≤ c && c ≤ 'Z' then Char.ofNat (c.toNat + 32) else c

/-- `str.lower`. -/
def pyLower (s : String) : String := ⟨s.data.map lowChar⟩

/-- `str.lstrip()`. -/
def pyLStrip (s : String) : String := ⟨s.data.dropWhile isPySpace⟩

/-- `str.strip()`. -/
def pyStrip (s : String) : String :=
  ⟨((s.data.dropWhile isPySpace).reverse.dropWhile isPySpace).reverse⟩

/-- `s.startswith(p)`. -/
def pyStartsWith (s p : String) : Bool := p.data.isPrefixOf s.data

/-- `s[n:]`. -/
def pyDrop (s : String) (n : ℕ) : String := ⟨s.data.drop n⟩

/-- `"\n".join(xs)`. -/
def joinNL : List String → String
  | [] => ""
  | [x] => x
  | x :: xs => x ++ "\n" ++ joinNL xs

/-! ## JSON-like Python values -/

/-- JSON-like Python value: the payloads the client and server traffic in. -/
inductive Json where
  | null : Json
  | bool : Bool → Json
  | num : ℚ → Json
  | str : String → Json
  | arr : List Json → Json
  | obj : List (String × Json) → Json

namespace Json

/-- Association-list lookup on an object; `none` off objects or for missing
keys.  Mirrors Python `dict.get` (Python dicts keep insertion order,
embedded as ordered association lists with distinct keys). -/
def rawGet : Json → String → Option Json
  | .obj fields, k => (fields.find? (fun kv => kv.1 = k)).map (·.2)
  | _, _ => none

/-- `dict.get` as the running Python code observes it: JSON `null` decodes
to the Python object `None`, indistinguishable from a missing key for
`is None` checks and truthiness, so a present `null` collapses to `none`. -/
def pyGet (j : Json) (k : String) : Option Json :=
  match j.rawGet k with
  | some .null => none
  | o => o

/-- Python truthiness of a JSON-like value (`bool(x)`). -/
def truthy : Json → Bool
  | .null => false
  | .bool b => b
  | .num q => q ≠ 0
  | .str s => s ≠ ""
  | .arr xs => !xs.isEmpty
  | .obj fields => !fields.isEmpty

/-- Is the value a Python `dict` (`isinstance(x, dict)`)? -/
def isObj : Json → Bool
  | .obj _ => true
  | _ => false

/-- Python `str(x)` for the values that can reach the status fields.
Strings are returned as-is; other scalars get their Python repr;
containers get a bracketed rendering (their exact repr never matters:
the result is only compared, uppercased, against status words). -/
def pyStr : Json → String
  | .null => "None"
  | .bool true => "True"
  | .bool false => "False"
  | .num q => toString q
  | .str s => s
  | .arr _ => "[...]"
  | .obj _ => "\x7b...\x7d"

end Json

/-- Python `a or b`: first truthy operand. -/
def pyOr (a b : Json) : Json := if a.truthy then a else b

/-- `dict.get(k)` with Python `None` (missing key or JSON null) mapped to
`Json.null`, so it can feed a truthiness-driven `or` chain. -/
def getJ (j : Json) (k : String) : Json := (j.pyGet k).getD .null

/-- Structured error raised by the client/server code
(`GenvoyToolError(code, message)`); `payload` models the raw terminal
payload interpolated into a `JOB_FAILED` message. -/
structure GError where
  code : String
  payload : Option Json := none

/-- `FalClient._status_value` / `server._status_from_payload` (identical
bodies in the source): normalized status of a payload, looking inside a
`data` sub-object first when it is a dict. -/
def statusValue (p : Json) : String :=
  match p.rawGet "data" with
  | some (.obj fields) =>
      let nested := Json.obj fields
      pyUpper (Json.pyStr (pyOr (getJ nested "status") (pyOr (getJ nested "state")
        (pyOr (getJ p "status") (pyOr (getJ p "state") (.str ""))))))
  | _ =>
      pyUpper (Json.pyStr (pyOr (getJ p "status") (pyOr (getJ p "state") (.str ""))))

/-- Terminal states of the queue (`{"COMPLETED", "FAILED"}`). -/
def isTerminalStatus (s : String) : Bool := s = "COMPLETED" || s = "FAILED"

/-! ## SSE stream parsing (`FalClient.stream_job_status`, fal_client.py) -/

/-- Loop state of the SSE line loop: pending `data:` chunks, the last
decoded dict frame, and the payloads handed to the `on_status` callback
so far (in order). -/
structure StreamState where
  dataLines : List String
  lastPayload : Option Json
  events : List Json

/-- The SSE line loop of `stream_job_status`: consumes lines, accumulating
`data:` chunk frames delimited by blank lines; each frame's chunks are
joined with newlines, stripped and decoded; empty, undecodable or
non-dict frames are skipped; a decoded dict frame is recorded, reported,
and returned when its normalized state is terminal.  Returns the final
state plus the early terminal payload, if any. -/
def streamRun (decode : String → Option Json) :
    List String → StreamState → StreamState × Option Json
  | [], st => (st, none)
  | line :: rest, st =>
    if pyStartsWith line "data:" then
      streamRun decode rest
        { st with dataLines := st.dataLines ++ [pyLStrip (pyDrop line 5)] }
    else if pyStrip line ≠ "" then
      streamRun decode rest st
    else if st.dataLines.isEmpty then
      streamRun decode rest st
    else
      if pyStrip (joinNL st.dataLines) = "" then
        streamRun decode rest { st with dataLines := [] }
      else
        match decode (pyStrip (joinNL st.dataLines)) with
        | none => streamRun decode rest { st with dataLines := [] }
        | some payload =>
          if payload.isObj then
            if isTerminalStatus (statusValue payload) then
              ({ st with dataLines := [], lastPayload := some payload,
                         events := st.events ++ [payload] }, some payload)
            else
              streamRun decode rest
                { st with dataLines := [], lastPayload := some payload,
                          events := st.events ++ [payload] }
          else
            streamRun decode rest { st with dataLines := [] }

/-- `FalClient.stream_job_status` over an abstract HTTP environment: the
stream response's status code and its body lines.  404/405/501 raise
`SSE_UNAVAILABLE` outright; any other error status becomes an
`httpx.HTTPStatusError`, also converted to `SSE_UNAVAILABLE`.  On normal
exhaustion, the last decoded frame is re-checked (Python truthiness first)
and a terminal one returned, otherwise `SSE_UNAVAILABLE`. -/
def streamJobStatus (statusCode : ℕ) (decode : String → Option Json)
    (lines : List String) : Except GError Json :=
  if statusCode = 404 ∨ statusCode = 405 ∨ statusCode = 501 then
    .error ⟨"SSE_UNAVAILABLE", none⟩
  else if 400 ≤ statusCode then
    .error ⟨"SSE_UNAVAILABLE", none⟩
  else
    match streamRun decode lines ⟨[], none, []⟩ with
    | (_, some payload) => .ok payload
    | (st, none) =>
      match st.lastPayload with
      | some p =>
        if p.truthy then
          if isTerminalStatus (statusValue p) then .ok p
          else .error ⟨"SSE_UNAVAILABLE", none⟩
        else .error ⟨"SSE_UNAVAILABLE", none⟩
      | none => .error ⟨"SSE_UNAVAILABLE", none⟩

/-! ## wait_for_completion (`FalClient.wait_for_completion`) -/

/-- Number of polling-loop iterations: the body runs for
`elapsed = 0, d, 2d, …` while `elapsed < timeout`, i.e. `⌈timeout/d⌉`
times for `d > 0` (the Python loop diverges for `d ≤ 0`; callers always
pass `d = 2.0`). -/
def pollFuel (timeout d : ℚ) : ℕ :=
  if 0 < d then (⌈timeout / d⌉).toNat else 0

/-- The polling fallback loop: `polls i` is the payload the `i`-th
`get_job_status` call returns.  COMPLETED returns it, FAILED raises
`JOB_FAILED` with the payload, fuel exhaustion raises `JOB_TIMEOUT`. -/
def pollPhase (polls : ℕ → Json) : ℕ → ℕ → Except GError Json
  | _, 0 => .error ⟨"JOB_TIMEOUT", none⟩
  | i, fuel + 1 =>
    let s := polls i
    if statusValue s = "COMPLETED" then .ok s
    else if statusValue s = "FAILED" then .error ⟨"JOB_FAILED", some s⟩
    else pollPhase polls (i + 1) fuel

/-- `wait_for_completion` given the outcome of the stream attempt.  The
`Bool` component is ghost instrumentation recording whether the polling
fallback ran.  A non-terminal stream payload falls through to polling in
the source (no `return`/`raise` fires), embedded faithfully here; the
`JOB_FAILED` raised on a FAILED stream frame is caught by the
`except GenvoyToolError` handler and re-raised since its code is not
`SSE_UNAVAILABLE`. -/
def waitFromStream (streamRes : Except GError Json) (polls : ℕ → Json)
    (timeout d : ℚ) : Except GError Json × Bool :=
  match streamRes with
  | .ok terminal =>
    if statusValue terminal = "COMPLETED" then (.ok terminal, false)
    else if statusValue terminal = "FAILED" then
      (.error ⟨"JOB_FAILED", some terminal⟩, false)
    else (pollPhase polls 0 (pollFuel timeout d), true)
  | .error e =>
    if e.code = "SSE_UNAVAILABLE" then (pollPhase polls 0 (pollFuel timeout d), true)
    else (.error e, false)

/-- `FalClient.wait_for_completion`: stream attempt composed with the
polling fallback, over the abstract stream environment and poll results. -/
def waitForCompletion (statusCode : ℕ) (decode : String → Option Json)
    (lines : List String) (polls : ℕ → Json) (timeout d : ℚ) :
    Except GError Json × Bool :=
  waitFromStream (streamJobStatus statusCode decode lines) polls timeout d

/-! ## Lemmas about the stream and the wait loop -/

/-- Any payload returned early by the SSE line loop has terminal status. -/
lemma streamRun_terminal (decode : String → Option Json) :
    ∀ (lines : List String) (st st2 : StreamState) (p : Json),
      streamRun decode lines st = (st2, some p) →
      isTerminalStatus (statusValue p) = true := by
  intro lines
  induction lines with
  | nil =>
    intro st st2 p h
    simp [streamRun] at h
  | cons line rest ih =>
    intro st st2 p h
    rw [streamRun] at h
    split at h
    · exact ih _ _ _ h
    · split at h
      · exact ih _ _ _ h
      · split at h
        · exact ih _ _ _ h
        · split at h
          · exact ih _ _ _ h
          · split at h
            · exact ih _ _ _ h
            · rename_i payload _
              split at h
              · split at h
                · rename_i hterm
                  obtain ⟨-, h2⟩ := Prod.mk.injEq .. ▸ h
                  obtain rfl := Option.some.injEq .. ▸ h2
                  exact hterm
                · exact ih _ _ _ h
              · exact ih _ _ _ h

/-- `stream_job_status` only succeeds with a terminal payload. -/
lemma streamJobStatus_ok_terminal (sc : ℕ) (decode : String → Option Json)
    (lines : List String) (p : Json) (h : streamJobStatus sc decode lines = .ok p) :
    isTerminalStatus (statusValue p) = true := by
  unfold streamJobStatus at h
  split at h
  · exact absurd h (by simp)
  · split at h
    · exact absurd h (by simp)
    · split at h
      · rename_i heq
        obtain rfl := Except.ok.injEq .. ▸ h
        exact streamRun_terminal decode lines _ _ _ heq
      · split at h
        · split at h
          · split at h
            · rename_i hterm
              obtain rfl := Except.ok.injEq .. ▸ h
              exact hterm
            · exact absurd h (by simp)
          · exact absurd h (by simp)
        · exact absurd h (by simp)

/-- Every error of `stream_job_status` is `SSE_UNAVAILABLE` (transport
failures, unsupported endpoints and stream exhaustion all map to it). -/
lemma streamJobStatus_error_shape (sc : ℕ) (decode : String → Option Json)
    (lines : List String) (e : GError)
    (h : streamJobStatus sc decode lines = .error e) :
    e = ⟨"SSE_UNAVAILABLE", none⟩ := by
  unfold streamJobStatus at h
  split at h
  · simpa using (Except.error.injEq .. ▸ h).symm
  · split at h
    · simpa using (Except.error.injEq .. ▸ h).symm
    · split at h
      · exact absurd h (by simp)
      · split at h
        · split at h
          · split at h
            · exact absurd h (by simp)
            · simpa using (Except.error.injEq .. ▸ h).symm
          · simpa using (Except.error.injEq .. ▸ h).symm
        · simpa using (Except.error.injEq .. ▸ h).symm

/-- Outcome shape of the polling loop: success only with COMPLETED status;
failure only `JOB_FAILED` carrying a FAILED payload, or `JOB_TIMEOUT`. -/
lemma pollPhase_spec (polls : ℕ → Json) :
    ∀ (fuel i : ℕ),
      match pollPhase polls i fuel with
      | .ok p => statusValue p = "COMPLETED"
      | .error e =>
          (e.code = "JOB_FAILED" ∧ ∃ t, e.payload = some t ∧ statusValue t = "FAILED")
          ∨ (e.code = "JOB_TIMEOUT" ∧ e.payload = none) := by
  intro fuel
  induction fuel with
  | zero =>
    intro i
    simp [pollPhase]
  | succ n ih =>
    intro i
    rw [pollPhase]
    by_cases h1 : statusValue (polls i) = "COMPLETED"
    · simp [h1]
    · by_cases h2 : statusValue (polls i) = "FAILED"
      · simp only [h1, if_false, h2, if_true]
        exact Or.inl ⟨rfl, polls i, rfl, h2⟩
      · simpa [h1, h2] using ih (i + 1)

/-! ## Claim theorems: wait_for_completion -/

/-- C1: for every stream environment (response status, body lines, JSON
decoding) and every sequence of polled status payloads,
`wait_for_completion` either returns a payload whose normalized status is
COMPLETED, or raises `JOB_FAILED` carrying a payload whose normalized
status is FAILED, or raises `JOB_TIMEOUT`; it never returns a payload
whose normalized status is anything other than COMPLETED. -/
theorem waitForCompletion_terminal_outcome (sc : ℕ) (decode : String → Option Json)
    (lines : List String) (polls : ℕ → Json) (timeout d : ℚ) :
    match (waitForCompletion sc decode lines polls timeout d).1 with
    | .ok p => statusValue p = "COMPLETED"
    | .error e =>
        (e.code = "JOB_FAILED" ∧ ∃ t, e.payload = some t ∧ statusValue t = "FAILED")
        ∨ (e.code = "JOB_TIMEOUT" ∧ e.payload = none) := by
  unfold waitForCompletion waitFromStream
  cases hs : streamJobStatus sc decode lines with
  | ok t =>
    have hterm := streamJobStatus_ok_terminal sc decode lines t hs
    by_cases h1 : statusValue t = "COMPLETED"
    · simp [h1]
    · have h2 : statusValue t = "FAILED" := by
        unfold isTerminalStatus at hterm
        rcases Bool.or_eq_true .. ▸ hterm with h | h
        · exact absurd (of_decide_eq_true h) h1
        · exact of_decide_eq_true h
      simp only [h1, if_false, h2, if_true]
      exact Or.inl ⟨rfl, t, rfl, h2⟩
  | error e =>
    obtain rfl := streamJobStatus_error_shape sc decode lines e hs
    simpa using pollPhase_spec polls (pollFuel timeout d) 0

/-- C2: the polling fallback runs exactly when the stream attempt fails
with `SSE_UNAVAILABLE`; a stream-attempt error of any other kind is
returned unchanged with no fallback, and a FAILED stream frame yields
`JOB_FAILED` with no fallback. -/
theorem waitForCompletion_fallback_iff :
    (∀ (sc : ℕ) (decode : String → Option Json) (lines : List String)
       (polls : ℕ → Json) (timeout d : ℚ),
       (waitForCompletion sc decode lines polls timeout d).2 = true
         ↔ streamJobStatus sc decode lines = .error ⟨"SSE_UNAVAILABLE", none⟩)
    ∧ (∀ (e : GError) (polls : ℕ → Json) (timeout d : ℚ),
         e.code ≠ "SSE_UNAVAILABLE" →
         waitFromStream (.error e) polls timeout d = (.error e, false))
    ∧ (∀ (t : Json) (polls : ℕ → Json) (timeout d : ℚ),
         statusValue t = "FAILED" →
         waitFromStream (.ok t) polls timeout d
           = (.error ⟨"JOB_FAILED", some t⟩, false)) := by
  refine ⟨?_, ?_, ?_⟩
  · intro sc decode lines polls timeout d
    unfold waitForCompletion waitFromStream
    cases hs : streamJobStatus sc decode lines with
    | ok t =>
      have hterm := streamJobStatus_ok_terminal sc decode lines t hs
      have hOr : statusValue t = "COMPLETED" ∨ statusValue t = "FAILED" := by
        unfold isTerminalStatus at hterm
        rcases Bool.or_eq_true .. ▸ hterm with h | h
        · exact Or.inl (of_decide_eq_true h)
        · exact Or.inr (of_decide_eq_true h)
      constructor
      · intro hfb
        dsimp only at hfb
        exfalso
        by_cases h1 : statusValue t = "COMPLETED"
        · rw [if_pos h1] at hfb
          exact Bool.false_ne_true hfb
        · have h2 : statusValue t = "FAILED" := hOr.resolve_left h1
          rw [if_neg h1, if_pos h2] at hfb
          exact Bool.false_ne_true hfb
      · intro hco
        exact Except.noConfusion hco
    | error e =>
      obtain rfl := streamJobStatus_error_shape sc decode lines e hs
      simp
  · intro e polls timeout d he
    simp [waitFromStream, he]
  · intro t polls timeout d ht
    have h1 : statusValue t ≠ "COMPLETED" := by
      rw [ht]; decide
    simp [waitFromStream, h1, ht]

/-- Witness for C2: with a decoder that rejects every body, the stream
falls back to polling; a `JOB_FAILED` stream error propagates unchanged;
a FAILED stream frame raises `JOB_FAILED` without fallback. -/
theorem waitForCompletion_fallback_iff_witness :
    (waitForCompletion 200 (fun _ => none) []
        (fun _ => Json.obj [("status", Json.str "COMPLETED")]) 10 2).2 = true
    ∧ waitFromStream (.error ⟨"JOB_FAILED", none⟩) (fun _ => Json.null) 10 2
        = (.error ⟨"JOB_FAILED", none⟩, false)
    ∧ waitFromStream (.ok (Json.obj [("status", Json.str "FAILED")]))
        (fun _ => Json.null) 10 2
        = (.error ⟨"JOB_FAILED", some (Json.obj [("status", Json.str "FAILED")])⟩, false) :=
  ⟨(waitForCompletion_fallback_iff.1 200 (fun _ => none) []
      (fun _ => Json.obj [("status", Json.str "COMPLETED")]) 10 2).mpr rfl,
   waitForCompletion_fallback_iff.2.1 ⟨"JOB_FAILED", none⟩ (fun _ => Json.null) 10 2
     (by decide),
   waitForCompletion_fallback_iff.2.2 (Json.obj [("status", Json.str "FAILED")])
     (fun _ => Json.null) 10 2 (by rfl)⟩

/-! ## Claim theorems: bad SSE frames -/

/-- A `data:` line contributes its chunk, left-stripped, to the pending frame. -/
lemma streamRun_data_line (decode : String → Option Json) (c : String)
    (lines : List String) (st : StreamState) :
    streamRun decode (("data:" ++ c) :: lines) st
      = streamRun decode lines
          { st with dataLines := st.dataLines ++ [pyLStrip c] } := by
  have hpre : pyStartsWith ("data:" ++ c) "data:" = true := by
    simp [pyStartsWith, String.data_append]
  have hdrop : pyDrop ("data:" ++ c) 5 = c := by
    unfold pyDrop
    rw [String.data_append]
    have h5 : ("data:").data.length = 5 := rfl
    rw [← h5, List.drop_left]
  rw [streamRun, if_pos hpre, hdrop]

/-- Consuming a run of `data:` lines accumulates the left-stripped chunks. -/
lemma streamRun_data_accum (decode : String → Option Json) (rest : List String) :
    ∀ (chunks : List String) (st : StreamState),
      streamRun decode (chunks.map (fun c => "data:" ++ c) ++ rest) st
        = streamRun decode rest
            { st with dataLines := st.dataLines ++ chunks.map pyLStrip } := by
  intro chunks
  induction chunks with
  | nil => intro st; simp
  | cons c cs ih =>
    intro st
    rw [List.map_cons, List.cons_append, streamRun_data_line, ih]
    simp

/-- Unfolding of the line loop at a blank line: flush the pending frame. -/
lemma streamRun_blank (decode : String → Option Json) (rest : List String)
    (st : StreamState) :
    streamRun decode ("" :: rest) st =
      if st.dataLines.isEmpty then streamRun decode rest st
      else if pyStrip (joinNL st.dataLines) = "" then
        streamRun decode rest { st with dataLines := [] }
      else
        match decode (pyStrip (joinNL st.dataLines)) with
        | none => streamRun decode rest { st with dataLines := [] }
        | some payload =>
          if payload.isObj then
            if isTerminalStatus (statusValue payload) then
              ({ st with dataLines := [], lastPayload := some payload,
                         events := st.events ++ [payload] }, some payload)
            else
              streamRun decode rest
                { st with dataLines := [], lastPayload := some payload,
                          events := st.events ++ [payload] }
          else streamRun decode rest { st with dataLines := [] } := by
  rw [streamRun, if_neg (show ¬(pyStartsWith "" "data:" = true) by decide),
      if_neg (show ¬(pyStrip "" ≠ "") by decide)]

/-- C10: a frame whose concatenated, stripped data payload is empty, fails
to decode as JSON, or decodes to a non-object value is silently skipped:
starting with no pending chunks, processing that frame's lines leaves the
loop state (last decoded frame, callback invocations) unchanged, raises
nothing, produces no early return, and the loop continues with the
remaining lines. -/
theorem streamRun_skips_bad_frame (decode : String → Option Json)
    (chunks rest : List String) (last : Option Json) (ev : List Json)
    (hbad : pyStrip (joinNL (chunks.map pyLStrip)) = ""
            ∨ decode (pyStrip (joinNL (chunks.map pyLStrip))) = none
            ∨ ∃ j, decode (pyStrip (joinNL (chunks.map pyLStrip))) = some j
                   ∧ j.isObj = false) :
    streamRun decode (chunks.map (fun c => "data:" ++ c) ++ [""] ++ rest)
        ⟨[], last, ev⟩
      = streamRun decode rest ⟨[], last, ev⟩ := by
  rw [List.append_assoc, List.singleton_append, streamRun_data_accum,
      streamRun_blank]
  simp only [List.nil_append]
  cases chunks with
  | nil => simp
  | cons c cs =>
    rw [if_neg (by simp)]
    rcases hbad with hb | hb | ⟨j, hj, hobj⟩
    · rw [if_pos hb]
    · rcases eq_or_ne (pyStrip (joinNL (List.map pyLStrip (c :: cs)))) "" with hraw | hraw
      · rw [if_pos hraw]
      · rw [if_neg hraw, hb]
    · rcases eq_or_ne (pyStrip (joinNL (List.map pyLStrip (c :: cs)))) "" with hraw | hraw
      · rw [if_pos hraw]
      · rw [if_neg hraw, hj]
        dsimp only
        have hno : ¬(j.isObj = true) := by simp [hobj]
        rw [if_neg hno]

/-- Witness for C10: a one-chunk frame that fails to decode is skipped and
the loop continues with the rest of the stream. -/
theorem streamRun_skips_bad_frame_witness :
    ((fun (_ : String) => (none : Option Json))
        (pyStrip (joinNL (["oops"].map pyLStrip))) = none)
    ∧ streamRun (fun _ => none)
        (["oops"].map (fun c => "data:" ++ c) ++ [""] ++ ["later"])
        ⟨[], none, []⟩
      = streamRun (fun _ => none) ["later"] ⟨[], none, []⟩ :=
  ⟨rfl, streamRun_skips_bad_frame (fun _ => none) ["oops"] ["later"] none []
    (Or.inr (Or.inl rfl))⟩

/-! ## Path resolution and the filesystem frame (filesystem.py)

Paths are embedded as component lists.  `AbsPath` is an absolute,
normalized path (components from the filesystem root); `PyPath` is a
`pathlib.Path`: possibly relative, possibly containing `..`/`.` segments.
`Path.resolve()` is embedded as pure `..`/`.` normalization (symbolic
links are not modelled).  The filesystem is a list of entries (directory
or regular file); `mkdir(parents=True, exist_ok=True)` creates a
directory at the resolved location of every syntactic ancestor of its
argument that does not exist yet. -/

/-- Absolute normalized path: component list from the filesystem root. -/
abbrev AbsPath := List String

/-- A `pathlib.Path`: absolute flag plus raw components (may contain
`..` and `.` segments). -/
structure PyPath where
  absolute : Bool
  comps : List String
deriving DecidableEq

/-- `..`/`.`/empty-segment normalization (the pure content of
`Path.resolve()`); `..` at the root stays at the root.  `acc` holds the
output so far, reversed. -/
def normSegs : List String → List String → List String
  | acc, [] => acc.reverse
  | acc, seg :: rest =>
    if seg = "" ∨ seg = "." then normSegs acc rest
    else if seg = ".." then normSegs acc.tail rest
    else normSegs (seg :: acc) rest

/-- Resolve a path against the process working directory
(`Path.resolve()`; `cwd` is assumed normalized). -/
def resolveUnder (cwd : AbsPath) (p : PyPath) : AbsPath :=
  normSegs [] ((if p.absolute then [] else cwd) ++ p.comps)

/-- `path.relative_to(root)` succeeds iff `root`'s components are a
prefix of the path's (`_is_within` in filesystem.py). -/
def hasRootPrefix : AbsPath → AbsPath → Bool
  | [], _ => true
  | _ :: _, [] => false
  | r :: rs, p :: ps => r = p && hasRootPrefix rs ps

/-- Index of the last `.` in a filename, if any. -/
def lastDotIdx (cs : List Char) : Option ℕ :=
  (List.range cs.length).foldl
    (fun acc i => if cs.getD i ' ' = '.' then some i else acc) none

/-- `PurePath.suffix`: the extension from the last dot, empty when the
dot is leading or trailing. -/
def nameSuffix (name : String) : String :=
  match lastDotIdx name.data with
  | some i =>
      if 0 < i ∧ i + 1 < name.data.length then ⟨name.data.drop i⟩ else ""
  | none => ""

/-- `PurePath.stem`: the filename minus its suffix. -/
def nameStem (name : String) : String :=
  ⟨name.data.take (name.data.length - (nameSuffix name).data.length)⟩

/-- Final component of an absolute path (`Path.name`). -/
def pathName (p : AbsPath) : String := p.getLast?.getD ""

/-- `Path.parent` of an absolute normalized path. -/
def pathParent (p : AbsPath) : AbsPath := p.dropLast

/-- `Path.suffix` of an absolute path. -/
def pathSuffix (p : AbsPath) : String := nameSuffix (pathName p)

/-- `Path.with_suffix`: replace (here: append, since it is only applied
to suffix-less paths) the final component's extension. -/
def pathWithSuffix (p : AbsPath) (ext : String) : AbsPath :=
  pathParent p ++ [nameStem (pathName p) ++ ext]

/-- Kind of a filesystem entry. -/
inductive EKind where
  | dir : EKind
  | file : EKind
deriving DecidableEq

/-- One filesystem entry: a path and whether it is a directory or file. -/
structure FSEntry where
  path : AbsPath
  kind : EKind
deriving DecidableEq

/-- Filesystem state: the entries that exist. -/
abbrev FS := List FSEntry

/-- `Path.exists()` (any entry kind). -/
def fsHas (fs : FS) (p : AbsPath) : Bool := fs.any (fun e => e.path = p)

/-- `target.mkdir(parents=True, exist_ok=True)`: create a directory at
the resolved location of every syntactic ancestor prefix of `target`
(pathlib iterates the syntactic parents; the OS resolves each during
creation), skipping ones that already exist. -/
def mkdirParents (fs : FS) (cwd : AbsPath) (target : PyPath) : FS :=
  fs ++ ((((List.range target.comps.length).map
      (fun i => resolveUnder cwd ⟨target.absolute, target.comps.take (i + 1)⟩)).filter
      (fun p => !fsHas fs p)).map (fun p => FSEntry.mk p .dir))

/-- `ensure_safe_path(path, cwd=None)` with the process working directory
as the root (as both call sites use it): resolve, then reject with
`PATH_TRAVERSAL_BLOCKED` unless the working root is a prefix. -/
def ensureSafePath (cwd : AbsPath) (p : PyPath) : Except GError AbsPath :=
  if hasRootPrefix cwd (resolveUnder cwd p) then .ok (resolveUnder cwd p)
  else .error ⟨"PATH_TRAVERSAL_BLOCKED", none⟩

/-- `unique_path`'s disambiguation loop, fuel-bounded: try
`stem_idx + suffix`, incrementing `idx` while the candidate exists.  The
source loop terminates exactly when a candidate is free; fuel
`|fs| + 1` always suffices by pigeonhole. -/
def uniquePathAux (fs : FS) (parent : AbsPath) (stem sfx : String) :
    ℕ → ℕ → AbsPath
  | idx, 0 => parent ++ [stem ++ "_" ++ toString idx ++ sfx]
  | idx, fuel + 1 =>
    if fsHas fs (parent ++ [stem ++ "_" ++ toString idx ++ sfx]) then
      uniquePathAux fs parent stem sfx (idx + 1) fuel
    else parent ++ [stem ++ "_" ++ toString idx ++ sfx]

/-- `unique_path`: return the path unchanged when free, else the first
free `stem_i + suffix` sibling starting from `i = 1`. -/
def uniquePath (fs : FS) (p : AbsPath) : AbsPath :=
  if fsHas fs p then
    uniquePathAux fs (pathParent p) (nameStem (pathName p)) (pathSuffix p) 1
      (fs.length + 1)
  else p

/-- Absolutize against the working directory
(`if not raw.is_absolute(): raw = Path.cwd() / raw`). -/
def absolutize (cwd : AbsPath) (p : PyPath) : PyPath :=
  if p.absolute then p else ⟨true, cwd ++ p.comps⟩

/-- The filesystem after `raw.parent.mkdir(parents=True, exist_ok=True)`
for the absolutized request (this happens BEFORE the safety check in the
source, so it is shared by the accept and reject branches below). -/
def parentDirsCreated (fs : FS) (cwd : AbsPath) (p : PyPath) : FS :=
  mkdirParents fs cwd
    ⟨(absolutize cwd p).absolute, (absolutize cwd p).comps.dropLast⟩

/-- `if not safe.suffix and preferred_ext: safe = safe.with_suffix(...)`
(Python truthiness: an empty `preferred_ext` counts as absent). -/
def applyPreferredExt (safe : AbsPath) (ext : Option String) : AbsPath :=
  if pathSuffix safe = "" then
    match ext with
    | some e => if e ≠ "" then pathWithSuffix safe e else safe
    | none => safe
  else safe

/-- `resolve_output_path(output_path, preferred_ext)` as a state
transformer on the filesystem: absolutize against the working directory,
create parent directories (before any safety check, as in the source),
run the traversal check, append the preferred extension to a suffix-less
path, disambiguate. -/
def resolveOutputPath (fs : FS) (cwd : AbsPath) (outputPath : PyPath)
    (preferredExt : Option String) : FS × Except GError AbsPath :=
  match ensureSafePath cwd (absolutize cwd outputPath) with
  | .error e => (parentDirsCreated fs cwd outputPath, .error e)
  | .ok safe =>
      (parentDirsCreated fs cwd outputPath,
       .ok (uniquePath (parentDirsCreated fs cwd outputPath)
             (applyPreferredExt safe preferredExt)))

/-- `copy_to_repo(src, dst)` as a state transformer: absolutize the
destination, create parent directories (before the safety check, as in
the source), run the traversal check, disambiguate, then `shutil.copy2`
creates the regular file at the final target (the copied content is not
modelled). -/
def copyToRepo (fs : FS) (cwd : AbsPath) (dst : PyPath) :
    FS × Except GError AbsPath :=
  match ensureSafePath cwd (absolutize cwd dst) with
  | .error e => (parentDirsCreated fs cwd dst, .error e)
  | .ok t =>
      (parentDirsCreated fs cwd dst
         ++ [FSEntry.mk (uniquePath (parentDirsCreated fs cwd dst) t) .file],
       .ok (uniquePath (parentDirsCreated fs cwd dst) t))

/-! ## Claim theorems: path traversal -/

/-- Absolutizing a relative path against the working directory commutes
with resolution. -/
lemma resolveUnder_absolutize (cwd : AbsPath) (p : PyPath) :
    resolveUnder cwd (absolutize cwd p) = resolveUnder cwd p := by
  obtain ⟨abs, comps⟩ := p
  cases abs <;> simp [absolutize, resolveUnder]

/-- C4: whenever the requested output path's resolved absolute form is not
inside the working root — any number of `..` segments, or an absolute
path outside the root — `resolve_output_path` fails with
`PATH_TRAVERSAL_BLOCKED` and returns no path. -/
theorem resolveOutputPath_blocks_escape (fs : FS) (cwd : AbsPath) (p : PyPath)
    (ext : Option String)
    (h : hasRootPrefix cwd (resolveUnder cwd p) = false) :
    (resolveOutputPath fs cwd p ext).2 = .error ⟨"PATH_TRAVERSAL_BLOCKED", none⟩ := by
  have hs : ensureSafePath cwd (absolutize cwd p)
      = .error ⟨"PATH_TRAVERSAL_BLOCKED", none⟩ := by
    unfold ensureSafePath
    rw [resolveUnder_absolutize, h]
    simp
  rw [resolveOutputPath, hs]

/-- Witness for C4: `../../etc/passwd` from `/home/user` resolves outside
the root and is blocked. -/
theorem resolveOutputPath_blocks_escape_witness :
    hasRootPrefix ["home", "user"]
        (resolveUnder ["home", "user"] ⟨false, ["..", "..", "etc", "passwd"]⟩) = false
    ∧ (resolveOutputPath [] ["home", "user"]
        ⟨false, ["..", "..", "etc", "passwd"]⟩ none).2
        = .error ⟨"PATH_TRAVERSAL_BLOCKED", none⟩ :=
  ⟨rfl, resolveOutputPath_blocks_escape [] ["home", "user"]
    ⟨false, ["..", "..", "etc", "passwd"]⟩ none rfl⟩

/-- Counterexample to C3 as stated, in two parts.  First: requesting
`../evil/sub/f.png` from `/home/user` is rejected with
`PATH_TRAVERSAL_BLOCKED`, yet the directory `/home/evil` — outside the
working root — has been created by the pre-check `mkdir(parents=True)`.
Second: a copy destination resolving to the working root itself (`.`)
passes `ensure_safe_path` (the root is within itself), after which
`unique_path` disambiguates the existing root directory to a SIBLING of
the root, and the copied file is created at `/home/user_1`, outside the
root, with no re-check. -/
theorem resolveOutputPath_escape_creates_outside_dir :
    (((resolveOutputPath [] ["home", "user"]
        ⟨false, ["..", "evil", "sub", "f.png"]⟩ none).2
        = .error ⟨"PATH_TRAVERSAL_BLOCKED", none⟩)
    ∧ FSEntry.mk ["home", "evil"] .dir
        ∈ (resolveOutputPath [] ["home", "user"]
            ⟨false, ["..", "evil", "sub", "f.png"]⟩ none).1
    ∧ hasRootPrefix ["home", "user"] ["home", "evil"] = false)
    ∧ ((copyToRepo [FSEntry.mk ["home", "user"] .dir] ["home", "user"]
          ⟨false, ["."]⟩).2 = .ok ["home", "user_1"]
    ∧ FSEntry.mk ["home", "user_1"] .file
        ∈ (copyToRepo [FSEntry.mk ["home", "user"] .dir] ["home", "user"]
            ⟨false, ["."]⟩).1
    ∧ hasRootPrefix ["home", "user"] ["home", "user_1"] = false) :=
  ⟨⟨rfl, by decide, rfl⟩, ⟨rfl, by decide, rfl⟩⟩

/-- New entries of `mkdir(parents=True)` are directories. -/
lemma mem_mkdirParents {fs : FS} {cwd : AbsPath} {t : PyPath} {e : FSEntry}
    (h : e ∈ mkdirParents fs cwd t) : e ∈ fs ∨ e.kind = .dir := by
  unfold mkdirParents at h
  rcases List.mem_append.mp h with h | h
  · exact Or.inl h
  · rcases List.mem_map.mp h with ⟨p, -, rfl⟩
    exact Or.inr rfl

/-- New entries of `parentDirsCreated` are directories. -/
lemma mem_parentDirsCreated {fs : FS} {cwd : AbsPath} {p : PyPath} {e : FSEntry}
    (h : e ∈ parentDirsCreated fs cwd p) : e ∈ fs ∨ e.kind = .dir :=
  mem_mkdirParents h

/-- C3 (amended): `resolve_output_path` creates only directories, never a
file; `copy_to_repo` also creates only directories when it rejects the
destination with `PATH_TRAVERSAL_BLOCKED` — so a rejected request never
creates a file — and the one regular file it creates on success is
exactly the returned, disambiguated target.  No containment in the
working root can be claimed for the created entries: the original
claim's "nothing outside the root" fails both for directories (created
before the traversal check) and for the success-path file (`unique_path`
can disambiguate a destination resolving to the root itself onto a
sibling of the root) — see the counterexample for both. -/
theorem safePath_file_creation_frame :
    (∀ (fs : FS) (cwd : AbsPath) (p : PyPath) (ext : Option String) (e : FSEntry),
        e ∈ (resolveOutputPath fs cwd p ext).1 → e ∉ fs → e.kind = .dir)
    ∧ (∀ (fs : FS) (cwd : AbsPath) (dst : PyPath) (ge : GError) (e : FSEntry),
        (copyToRepo fs cwd dst).2 = .error ge →
        e ∈ (copyToRepo fs cwd dst).1 → e ∉ fs → e.kind = .dir)
    ∧ (∀ (fs : FS) (cwd : AbsPath) (dst : PyPath) (e : FSEntry),
        e ∈ (copyToRepo fs cwd dst).1 → e ∉ fs → e.kind = .file →
        ∃ t, (copyToRepo fs cwd dst).2 = .ok t ∧ e.path = t) := by
  refine ⟨?_, ?_, ?_⟩
  · intro fs cwd p ext e he hnew
    rw [resolveOutputPath] at he
    rcases hs : ensureSafePath cwd (absolutize cwd p) with ge | safe <;>
      rw [hs] at he <;> dsimp only at he <;>
      exact (mem_parentDirsCreated he).resolve_left hnew
  · intro fs cwd dst ge e herr he hnew
    rw [copyToRepo] at herr he
    rcases hs : ensureSafePath cwd (absolutize cwd dst) with g | t <;>
      rw [hs] at herr he <;> dsimp only at herr he
    · exact (mem_parentDirsCreated he).resolve_left hnew
    · exact absurd herr (by simp)
  · intro fs cwd dst e he hnew hfile
    rw [copyToRepo] at he ⊢
    rcases hs : ensureSafePath cwd (absolutize cwd dst) with g | t <;>
      rw [hs] at he <;> dsimp only at he ⊢
    · have hd := (mem_parentDirsCreated he).resolve_left hnew
      rw [hd] at hfile
      exact absurd hfile (by simp)
    · rcases List.mem_append.mp he with hm | hm
      · have hd := (mem_parentDirsCreated hm).resolve_left hnew
        rw [hd] at hfile
        exact absurd hfile (by simp)
      · rcases List.mem_singleton.mp hm with rfl
        exact ⟨_, rfl, rfl⟩

/-- Witness for the amended C3: the outside-root entry created while
rejecting `../evil/sub/f.png` is a directory, not a file. -/
theorem safePath_file_creation_frame_witness :
    FSEntry.kind (FSEntry.mk ["home", "evil"] EKind.dir) = EKind.dir :=
  safePath_file_creation_frame.1 [] ["home", "user"]
    ⟨false, ["..", "evil", "sub", "f.png"]⟩ none
    (FSEntry.mk ["home", "evil"] EKind.dir) (by decide) (by decide)

/-! ## Python numeric conversion

`float(x)` on strings parses the usual decimal syntax (sign, digits,
fraction, exponent) after stripping whitespace; the special words
`inf`/`nan` are not modelled (no claim involves them).  On booleans
`float` returns 0/1 (`bool` is an `int` subclass); on `None`, lists and
dicts it raises `TypeError`, embedded as `none`. -/

/-- ASCII digit test. -/
def isDigitC (c : Char) : Bool := '0' ≤ c && c ≤ '9'

/-- Numeric value of an ASCII digit. -/
def digitVal (c : Char) : ℕ := c.toNat - 48

/-- Value of a digit run. -/
def digitsToNat (cs : List Char) : ℕ := cs.foldl (fun a c => a * 10 + digitVal c) 0

/-- Apply a trailing exponent `ds` (all digits, nonempty) to `base`;
`neg` is the exponent sign. -/
def applyExp10 (base : ℚ) (neg : Bool) (ds : List Char) : Option ℚ :=
  if ds.isEmpty || !ds.all isDigitC then none
  else some (if neg then base / 10 ^ digitsToNat ds else base * 10 ^ digitsToNat ds)

/-- Parse the optional `e`/`E` exponent tail of a float literal. -/
def parseExpTail (base : ℚ) : List Char → Option ℚ
  | [] => some base
  | c :: rest =>
    if c = 'e' || c = 'E' then
      match rest with
      | '+' :: ds => applyExp10 base false ds
      | '-' :: ds => applyExp10 base true ds
      | ds => applyExp10 base false ds
    else none

/-- Parse an unsigned float literal (`digits[.digits]`, `.digits`, with
optional exponent). -/
def parseUnsigned (cs : List Char) : Option ℚ :=
  match cs.dropWhile isDigitC with
  | '.' :: rest2 =>
    if (cs.takeWhile isDigitC).isEmpty && (rest2.takeWhile isDigitC).isEmpty then none
    else
      parseExpTail
        ((digitsToNat (cs.takeWhile isDigitC) : ℚ)
          + (digitsToNat (rest2.takeWhile isDigitC) : ℚ)
            / 10 ^ (rest2.takeWhile isDigitC).length)
        (rest2.dropWhile isDigitC)
  | rest1 =>
    if (cs.takeWhile isDigitC).isEmpty then none
    else parseExpTail (digitsToNat (cs.takeWhile isDigitC) : ℚ) rest1

/-- `float(s)` for a string. -/
def pyFloatOfString (s : String) : Option ℚ :=
  match (pyStrip s).data with
  | '+' :: rest => parseUnsigned rest
  | '-' :: rest => (parseUnsigned rest).map Neg.neg
  | rest => parseUnsigned rest

/-- `float(x)` on a JSON-like value (`TypeError`/`ValueError` as `none`). -/
def pyFloat : Json → Option ℚ
  | .num q => some q
  | .bool b => some (if b then 1 else 0)
  | .str s => pyFloatOfString s
  | _ => none

/-! ## Progress normalization (`server._progress_from_payload` and the
`_on_status` closure of `server._wait_for_completion_with_progress`) -/

/-- The raw progress value `_progress_from_payload` selects:
`progress`, then `progress_percent`, then `percentage`, then
`metrics.progress` when `metrics` is a dict. -/
def progressRaw (p : Json) : Option Json :=
  let source := match p.rawGet "data" with
    | some (.obj fields) => Json.obj fields
    | _ => p
  match source.pyGet "progress" with
  | some v => some v
  | none =>
    match source.pyGet "progress_percent" with
    | some v => some v
    | none =>
      match source.pyGet "percentage" with
      | some v => some v
      | none =>
        match source.rawGet "metrics" with
        | some (.obj ms) => (Json.obj ms).pyGet "progress"
        | _ => none

/-- `server._progress_from_payload`: convert the raw value (0 when
missing, 0 when the conversion raises), scale fractions in [0,1] to a
percentage, clamp to [0,100]. -/
def progressFromPayload (p : Json) : ℚ :=
  match (match progressRaw p with
         | none => some (0 : ℚ)
         | some j => pyFloat j) with
  | none => 0
  | some v =>
    max 0 (min 100 (if 0 ≤ v ∧ v ≤ 1 then v * 100 else v))

/-- The progress value the `_on_status` closure reports to the MCP
context: forced to exactly 100 on a COMPLETED event. -/
def reportedProgress (status : Json) : ℚ :=
  if statusValue status = "COMPLETED" then 100 else progressFromPayload status

/-! ## Claim theorems: progress -/

/-- C7: the reported progress always lies in [0,100]; a raw value in
[0,1] is scaled to a percentage; values above 100 and below 0 are
clamped; a missing or non-numeric raw value yields 0; and a COMPLETED
event reports exactly 100 regardless of the raw value. -/
theorem progress_clamped_scaled_forced :
    (∀ p : Json, 0 ≤ reportedProgress p ∧ reportedProgress p ≤ 100)
    ∧ (∀ (p : Json) (j : Json) (v : ℚ), progressRaw p = some j → pyFloat j = some v →
        0 ≤ v → v ≤ 1 → progressFromPayload p = v * 100)
    ∧ (∀ (p : Json) (j : Json) (v : ℚ), progressRaw p = some j → pyFloat j = some v →
        100 < v → progressFromPayload p = 100)
    ∧ (∀ (p : Json) (j : Json) (v : ℚ), progressRaw p = some j → pyFloat j = some v →
        v < 0 → progressFromPayload p = 0)
    ∧ (∀ (p : Json) (j : Json), progressRaw p = some j → pyFloat j = none →
        progressFromPayload p = 0)
    ∧ (∀ p : Json, progressRaw p = none → progressFromPayload p = 0)
    ∧ (∀ p : Json, statusValue p = "COMPLETED" → reportedProgress p = 100) := by
  have hbounds : ∀ p : Json, 0 ≤ progressFromPayload p ∧ progressFromPayload p ≤ 100 := by
    intro p
    unfold progressFromPayload
    rcases progressRaw p with _ | j
    · constructor <;> dsimp only
      · exact le_max_left 0 _
      · exact max_le (by norm_num) (min_le_left 100 _)
    · dsimp only
      rcases pyFloat j with _ | v
      · exact ⟨le_refl 0, by norm_num⟩
      · refine ⟨le_max_left 0 _, max_le (by norm_num) (min_le_left 100 _)⟩
  refine ⟨?_, ?_, ?_, ?_, ?_, ?_, ?_⟩
  · intro p
    unfold reportedProgress
    by_cases h : statusValue p = "COMPLETED"
    · rw [if_pos h]; norm_num
    · rw [if_neg h]; exact hbounds p
  · intro p j v hr hv h0 h1
    unfold progressFromPayload
    rw [hr]
    dsimp only
    rw [hv]
    dsimp only
    rw [if_pos ⟨h0, h1⟩]
    have hle : v * 100 ≤ 100 := by nlinarith
    have hge : (0 : ℚ) ≤ v * 100 := by nlinarith
    rw [min_eq_right hle, max_eq_right hge]
  · intro p j v hr hv h100
    unfold progressFromPayload
    rw [hr]
    dsimp only
    rw [hv]
    dsimp only
    rw [if_neg (by rintro ⟨-, h⟩; linarith)]
    rw [min_eq_left (by linarith), max_eq_right (by norm_num)]
  · intro p j v hr hv hneg
    unfold progressFromPayload
    rw [hr]
    dsimp only
    rw [hv]
    dsimp only
    rw [if_neg (by rintro ⟨h, -⟩; linarith)]
    rw [min_eq_right (by linarith), max_eq_left (by linarith)]
  · intro p j hr hv
    unfold progressFromPayload
    rw [hr]
    dsimp only
    rw [hv]
  · intro p hr
    unfold progressFromPayload
    rw [hr]
    dsimp only
    rw [if_pos (by norm_num)]
    norm_num
  · intro p h
    unfold reportedProgress
    rw [if_pos h]

/-- Witness for C7: a fractional raw value is scaled, an oversized one is
clamped, a non-numeric one yields 0, and COMPLETED forces 100. -/
theorem progress_clamped_scaled_forced_witness :
    progressFromPayload (Json.obj [("progress", Json.num (1 / 2))]) = (1 / 2) * 100
    ∧ progressFromPayload (Json.obj [("progress", Json.num 250)]) = 100
    ∧ progressFromPayload (Json.obj [("progress", Json.str "abc")]) = 0
    ∧ reportedProgress (Json.obj [("status", Json.str "COMPLETED"),
        ("progress", Json.num (1 / 4))]) = 100 :=
  ⟨progress_clamped_scaled_forced.2.1 _ (Json.num (1 / 2)) (1 / 2) rfl rfl
      (by norm_num) (by norm_num),
   progress_clamped_scaled_forced.2.2.1 _ (Json.num 250) 250 rfl rfl (by norm_num),
   progress_clamped_scaled_forced.2.2.2.2.1 _ (Json.str "abc") rfl rfl,
   progress_clamped_scaled_forced.2.2.2.2.2.2 _ rfl⟩

/-! ## Batch / compare aggregation (server.generate_batch, generate_compare)

`asyncio.gather(*tasks, return_exceptions=True)` yields one outcome per
item, exceptions included, with no early abort; each item's pipeline is
independent.  The aggregation loops are embedded over the resulting
outcome list (`Except errString result`). -/

/-- The `for idx, item in enumerate(results)` loop of `generate_batch`:
successes to `files`, failures to `failed` tagged `idx + 1` (1-based;
`i` is the 0-based index of the first element). -/
def batchAggregate {α : Type} : List (Except String α) → ℕ → List α × List (ℕ × String)
  | [], _ => ([], [])
  | .ok a :: rest, i =>
      ((batchAggregate rest (i + 1)).1.cons a, (batchAggregate rest (i + 1)).2)
  | .error e :: rest, i =>
      ((batchAggregate rest (i + 1)).1, (batchAggregate rest (i + 1)).2.cons (i + 1, e))

/-- The `for model_id, item in zip(model_ids, results)` loop of
`generate_compare`: failures are keyed by the originating model id. -/
def compareAggregate {α : Type} :
    List String → List (Except String α) → List α × List (String × String)
  | _ :: mids, .ok a :: rest =>
      ((compareAggregate mids rest).1.cons a, (compareAggregate mids rest).2)
  | mid :: mids, .error e :: rest =>
      ((compareAggregate mids rest).1, (compareAggregate mids rest).2.cons (mid, e))
  | _, _ => ([], [])

/-- A prefix of successes passes through the batch aggregation. -/
lemma batchAggregate_ok_prefix {α : Type} (pre : List α)
    (rest : List (Except String α)) :
    ∀ i : ℕ,
      batchAggregate (pre.map Except.ok ++ rest) i
        = (pre ++ (batchAggregate rest (i + pre.length)).1,
           (batchAggregate rest (i + pre.length)).2) := by
  induction pre with
  | nil => intro i; simp [batchAggregate]
  | cons a pre ih =>
    intro i
    rw [List.map_cons, List.cons_append, batchAggregate, ih (i + 1),
      show i + 1 + pre.length = i + (pre.length + 1) from by omega]
    simp

/-- A list of only successes aggregates to itself with no failures. -/
lemma batchAggregate_all_ok {α : Type} (post : List α) :
    ∀ i : ℕ, batchAggregate (post.map Except.ok) i = (post, []) := by
  induction post with
  | nil => intro i; rfl
  | cons a post ih => intro i; simp [batchAggregate, ih (i + 1)]

/-- A prefix of successes passes through the compare aggregation. -/
lemma compareAggregate_ok_prefix {β : Type} (preP : List (String × β))
    (mids : List String) (rest : List (Except String β)) :
    compareAggregate (preP.map Prod.fst ++ mids)
        (preP.map (fun x => Except.ok x.2) ++ rest)
      = (preP.map Prod.snd ++ (compareAggregate mids rest).1,
         (compareAggregate mids rest).2) := by
  induction preP with
  | nil => simp
  | cons x preP ih =>
    simp only [List.map_cons, List.cons_append, compareAggregate]
    simp only [List.append_eq]
    rw [ih]

/-- Only successes: compare aggregation returns them with no failures. -/
lemma compareAggregate_all_ok {β : Type} (postP : List (String × β)) :
    compareAggregate (postP.map Prod.fst) (postP.map (fun x => Except.ok x.2))
      = (postP.map Prod.snd, []) := by
  induction postP with
  | nil => rfl
  | cons x postP ih => simp [compareAggregate, ih]

/-- C8: in a batch of N items where exactly one item (preceded by
`pre.length` successes) fails, aggregation keeps all N-1 successes in
order, reports exactly one failure tagged with the item's 1-based index,
and processes every item (the successes after the failure are unaffected);
`files` is one shorter than the input.  For compare fan-out, the single
failure is keyed by the originating model identifier instead. -/
theorem fanout_single_failure_isolated {α β : Type} :
    (∀ (pre post : List α) (e : String),
        batchAggregate (pre.map Except.ok ++ [Except.error e] ++ post.map Except.ok) 0
          = (pre ++ post, [(pre.length + 1, e)])
        ∧ (pre ++ post).length + 1
            = (pre.map Except.ok ++ [Except.error e] ++ post.map Except.ok).length)
    ∧ (∀ (preP postP : List (String × β)) (mid : String) (e : String),
        compareAggregate
            (preP.map Prod.fst ++ [mid] ++ postP.map Prod.fst)
            (preP.map (fun x => Except.ok x.2) ++ [Except.error e]
              ++ postP.map (fun x => Except.ok x.2))
          = (preP.map Prod.snd ++ postP.map Prod.snd, [(mid, e)])) := by
  constructor
  · intro pre post e
    constructor
    · rw [List.append_assoc, List.singleton_append,
        batchAggregate_ok_prefix pre (Except.error e :: post.map Except.ok) 0]
      simp [batchAggregate, batchAggregate_all_ok post]
    · simp only [List.length_append, List.length_map, List.length_cons,
        List.length_nil]
      omega
  · intro preP postP mid e
    rw [List.append_assoc, List.singleton_append, List.append_assoc,
      List.singleton_append,
      compareAggregate_ok_prefix preP (mid :: postP.map Prod.fst)
        (Except.error e :: postP.map (fun x => Except.ok x.2))]
    simp [compareAggregate, compareAggregate_all_ok postP]

/-! ## HTTP request mapping (`FalClient._request`) -/

/-- An HTTP response as `_request` inspects it: status code, the
`Retry-After` and `X-Fal-Request-Timeout-Type` headers, and the body. -/
structure HttpResponse where
  statusCode : ℕ
  retryAfter : Option String
  timeoutType : Option String
  content : String

/-- `FalClient._request`'s response handling: transport failure
(`httpx.HTTPError`, embedded as `none`) becomes `NETWORK_ERROR`; then the
special status cases in source order (429, 404, 403-on-usage-URL,
504-with-user-timeout header), then `raise_for_status` for any remaining
status ≥ 400; an empty success body returns `{}`; otherwise the body
must decode as JSON or `INVALID_RESPONSE` is raised. -/
def falRequest (urlHasUsage : Bool) (decode : String → Option Json)
    (resp : Option HttpResponse) : Except GError Json :=
  match resp with
  | none => .error ⟨"NETWORK_ERROR", none⟩
  | some r =>
    if r.statusCode = 429 then .error ⟨"RATE_LIMITED", none⟩
    else if r.statusCode = 404 then .error ⟨"MODEL_NOT_FOUND", none⟩
    else if r.statusCode = 403 ∧ urlHasUsage then .error ⟨"ADMIN_KEY_REQUIRED", none⟩
    else if r.statusCode = 504 ∧ r.timeoutType = some "user" then
      .error ⟨"QUEUE_START_TIMEOUT", none⟩
    else if 400 ≤ r.statusCode then .error ⟨"FAL_API_ERROR", none⟩
    else if r.content = "" then .ok (Json.obj [])
    else
      match decode r.content with
      | some j => .ok j
      | none => .error ⟨"INVALID_RESPONSE", none⟩

/-! ## Claim theorems: 2xx body handling -/

/-- Counterexample to C9 as stated: a 2xx response with an empty body does
NOT raise `INVALID_RESPONSE` — `_request` silently substitutes the empty
object `{}` (the missing-field check happens later, in the orchestrator). -/
theorem falRequest_empty_body_returns_empty_object :
    falRequest false (fun _ => none) (some ⟨200, none, none, ""⟩)
      = .ok (Json.obj []) := rfl

/-- C9 (amended): on a success response (status < 400, which rules out
every special-cased error status), a NON-empty body that fails to parse
as JSON raises `INVALID_RESPONSE`, a parseable body returns its JSON
value, and an EMPTY body silently yields the empty object `{}` instead of
an error.  (The original claim's absent-body clause fails — see the
counterexample.) -/
theorem falRequest_success_body_handling (urlHasUsage : Bool)
    (decode : String → Option Json) (r : HttpResponse)
    (hok : r.statusCode < 400) :
    (r.content = "" → falRequest urlHasUsage decode (some r) = .ok (Json.obj []))
    ∧ (r.content ≠ "" → decode r.content = none →
        falRequest urlHasUsage decode (some r) = .error ⟨"INVALID_RESPONSE", none⟩)
    ∧ (∀ j, r.content ≠ "" → decode r.content = some j →
        falRequest urlHasUsage decode (some r) = .ok j) := by
  have h429 : ¬(r.statusCode = 429) := by omega
  have h404 : ¬(r.statusCode = 404) := by omega
  have h403 : ¬(r.statusCode = 403 ∧ urlHasUsage) := by
    rintro ⟨h, -⟩; omega
  have h504 : ¬(r.statusCode = 504 ∧ r.timeoutType = some "user") := by
    rintro ⟨h, -⟩; omega
  have hge : ¬(400 ≤ r.statusCode) := by omega
  refine ⟨?_, ?_, ?_⟩
  · intro hempty
    unfold falRequest
    dsimp only
    rw [if_neg h429, if_neg h404, if_neg h403, if_neg h504, if_neg hge,
      if_pos hempty]
  · intro hne hdec
    unfold falRequest
    dsimp only
    rw [if_neg h429, if_neg h404, if_neg h403, if_neg h504, if_neg hge,
      if_neg hne, hdec]
  · intro j hne hdec
    unfold falRequest
    dsimp only
    rw [if_neg h429, if_neg h404, if_neg h403, if_neg h504, if_neg hge,
      if_neg hne, hdec]

/-- Witness for the amended C9: a 200 response with body `not-json` that
fails to decode raises `INVALID_RESPONSE`; one with a decodable body
returns the decoded value. -/
theorem falRequest_success_body_handling_witness :
    falRequest false (fun _ => none) (some ⟨200, none, none, "not-json"⟩)
      = .error ⟨"INVALID_RESPONSE", none⟩
    ∧ falRequest false (fun _ => some (Json.obj [("a", Json.num 1)]))
        (some ⟨200, none, none, "x"⟩)
      = .ok (Json.obj [("a", Json.num 1)]) :=
  ⟨(falRequest_success_body_handling false (fun _ => none)
      ⟨200, none, none, "not-json"⟩ (by norm_num)).2.1 (by decide) rfl,
   (falRequest_success_body_handling false (fun _ => some (Json.obj [("a", Json.num 1)]))
      ⟨200, none, none, "x"⟩ (by norm_num)).2.2 (Json.obj [("a", Json.num 1)])
      (by decide) rfl⟩

/-! ## Cost / duration extraction (`server._extract_cost_usd`,
`server._extract_duration_ms`, combined in `server._generate_once`) -/

/-- `server._get_nested`: walk a key path, `none` when a step is not a
dict or the key is missing. -/
def getNested : Json → List String → Option Json
  | j, [] => some j
  | j, k :: ks =>
    match j.rawGet k with
    | some v => getNested v ks
    | none => none

/-- `re.search(r"-?\d+(?:\.\d+)?", s)` at one position: optional minus,
a digit run, an optional fractional part (dot plus at least one digit). -/
def matchNumAt (cs : List Char) : Option ℚ :=
  let neg := match cs with
    | '-' :: _ => true
    | _ => false
  let cs1 := match cs with
    | '-' :: t => t
    | t => t
  let ds := cs1.takeWhile isDigitC
  if ds.isEmpty then none
  else
    let frac := match cs1.dropWhile isDigitC with
      | '.' :: t => t.takeWhile isDigitC
      | _ => []
    let q : ℚ := (digitsToNat ds : ℚ) + (digitsToNat frac : ℚ) / 10 ^ frac.length
    some (if neg then -q else q)

/-- Leftmost match of the signed-decimal regex in a character list. -/
def firstNumAux : List Char → Option ℚ
  | [] => none
  | c :: rest =>
    match matchNumAt (c :: rest) with
    | some q => some q
    | none => firstNumAux rest

/-- First signed decimal number found in a string (the cost extractor's
`re.search` followed by `float(match.group(0))`). -/
def firstNumInString (s : String) : Option ℚ := firstNumAux s.data

/-- The value a cost candidate yields: numbers (and booleans, an `int`
subclass) via `float(raw)`; strings via the first embedded decimal;
everything else (including JSON null, skipped by `raw is None`) yields
nothing and the loop continues. -/
def costValue : Json → Option ℚ
  | .num q => some q
  | .bool b => some (if b then 1 else 0)
  | .str s => firstNumInString s
  | _ => none

/-- Python `int(x)` on a float: truncation toward zero. -/
def ratTrunc (q : ℚ) : ℤ := if 0 ≤ q then ⌊q⌋ else ⌈q⌉

/-- The value a duration candidate yields: `int(float(raw))`, with
`TypeError`/`ValueError` (null, containers, unparseable strings)
continuing the loop. -/
def durationValue (raw : Json) : Option ℤ := (pyFloat raw).map ratTrunc

/-- Candidate key paths probed for a cost. -/
def costPaths : List (List String) :=
  [["cost_usd"], ["cost"], ["usage", "cost_usd"], ["usage", "cost"],
   ["usage", "total_cost"], ["metrics", "cost"]]

/-- Candidate key paths probed for a duration. -/
def durationPaths : List (List String) :=
  [["duration_ms"], ["latency_ms"], ["timings", "duration_ms"],
   ["timings", "total_ms"], ["metrics", "duration_ms"]]

/-- The inner `for path in candidate_paths` loop shared by both
extractors: return the first path whose value yields something. -/
def probeFromSource {A : Type} (value : Json → Option A) (src : Json) :
    List (List String) → Option A
  | [] => none
  | path :: rest =>
    match getNested src path with
    | some raw =>
      match value raw with
      | some v => some v
      | none => probeFromSource value src rest
    | none => probeFromSource value src rest

/-- The `sources` list: the payload itself, then its `data` sub-object
when that is a dict. -/
def sourcesOf (p : Json) : List Json :=
  match p.rawGet "data" with
  | some (.obj fields) => [p, .obj fields]
  | _ => [p]

/-- The shared two-level `for source in sources: for path in ...` loop of
both extractors (`sources = [payload]` plus the `data` dict if any). -/
def extractBy {A : Type} (value : Json → Option A)
    (paths : List (List String)) (p : Json) : Option A :=
  match probeFromSource value p paths with
  | some v => some v
  | none =>
    match p.rawGet "data" with
    | some (.obj fields) => probeFromSource value (.obj fields) paths
    | _ => none

/-- `server._extract_cost_usd`. -/
def extractCostUsd (p : Json) : Option ℚ := extractBy costValue costPaths p

/-- `server._extract_duration_ms`. -/
def extractDurationMs (p : Json) : Option ℤ :=
  extractBy durationValue durationPaths p

/-- Python `a or b` on `float | None` / `int | None` values: `a` unless
it is `None` OR ZERO (both falsy), else `b`. -/
def pyOrNum {A : Type} [Zero A] [DecidableEq A] (a b : Option A) : Option A :=
  match a with
  | some v => if v = 0 then b else some v
  | none => b

/-- `cost_usd = _extract_cost_usd(result_payload) or
_extract_cost_usd(terminal_status)` in `_generate_once`. -/
def costCombined (result terminal : Json) : Option ℚ :=
  pyOrNum (extractCostUsd result) (extractCostUsd terminal)

/-- `duration_ms = _extract_duration_ms(result_payload) or
_extract_duration_ms(terminal_status)` in `_generate_once`. -/
def durationCombined (result terminal : Json) : Option ℤ :=
  pyOrNum (extractDurationMs result) (extractDurationMs terminal)

/-! ## Claim theorems: cost/duration extraction -/

/-- The ordered list of values yielded by the candidate paths over all
sources (the spec's notion of the present, value-yielding key paths in
the payload and its `data` sub-object, in probe order). -/
def probeCandidates {A : Type} (value : Json → Option A)
    (paths : List (List String)) (p : Json) : List A :=
  (sourcesOf p).flatMap
    (fun src => paths.filterMap (fun path => (getNested src path).bind value))

/-- The probe loop returns the head of the yielded-value list. -/
lemma probeFromSource_eq_head {A : Type} (value : Json → Option A) (src : Json) :
    ∀ paths : List (List String),
      probeFromSource value src paths
        = (paths.filterMap (fun path => (getNested src path).bind value)).head? := by
  intro paths
  induction paths with
  | nil => rfl
  | cons path rest ih =>
    rw [probeFromSource]
    rcases hg : getNested src path with _ | raw
    · simp only [List.filterMap_cons, hg, Option.none_bind]
      exact ih
    · rcases hv : value raw with _ | v
      · simp only [List.filterMap_cons, hg, Option.some_bind, hv]
        exact ih
      · simp only [List.filterMap_cons, hg, Option.some_bind, hv, List.head?_cons]

/-- Both extractors return the first yielded value over sources × paths. -/
lemma extract_eq_head {A : Type} (value : Json → Option A)
    (paths : List (List String)) (p : Json) :
    extractBy value paths p = (probeCandidates value paths p).head? := by
  unfold extractBy probeCandidates sourcesOf
  rcases hd : p.rawGet "data" with _ | j
  · simp only [List.flatMap_cons, List.flatMap_nil, List.append_nil]
    rw [probeFromSource_eq_head]
    rcases (paths.filterMap (fun path => (getNested p path).bind value)).head? with _ | v <;> rfl
  · cases j with
    | obj fields =>
      simp only [List.flatMap_cons, List.flatMap_nil, List.append_nil]
      rw [probeFromSource_eq_head, probeFromSource_eq_head, List.head?_append]
      rcases (paths.filterMap (fun path => (getNested p path).bind value)).head? with _ | v <;> rfl
    | null =>
      simp only [List.flatMap_cons, List.flatMap_nil, List.append_nil]
      rw [probeFromSource_eq_head]
      rcases (paths.filterMap (fun path => (getNested p path).bind value)).head? with _ | v <;> rfl
    | bool b =>
      simp only [List.flatMap_cons, List.flatMap_nil, List.append_nil]
      rw [probeFromSource_eq_head]
      rcases (paths.filterMap (fun path => (getNested p path).bind value)).head? with _ | v <;> rfl
    | num q =>
      simp only [List.flatMap_cons, List.flatMap_nil, List.append_nil]
      rw [probeFromSource_eq_head]
      rcases (paths.filterMap (fun path => (getNested p path).bind value)).head? with _ | v <;> rfl
    | str s =>
      simp only [List.flatMap_cons, List.flatMap_nil, List.append_nil]
      rw [probeFromSource_eq_head]
      rcases (paths.filterMap (fun path => (getNested p path).bind value)).head? with _ | v <;> rfl
    | arr xs =>
      simp only [List.flatMap_cons, List.flatMap_nil, List.append_nil]
      rw [probeFromSource_eq_head]
      rcases (paths.filterMap (fun path => (getNested p path).bind value)).head? with _ | v <;> rfl

/-- Counterexample to C5 as stated: when the result payload's cost is 0
and the terminal payload's is 5, the combined value is 5, not the result
payload's 0 (Python `or` treats 0.0 as falsy); and a present key path
whose value yields no number (`"free"`) still produces an absent result. -/
theorem cost_zero_not_preferred :
    extractCostUsd (Json.obj [("cost_usd", Json.num 0)]) = some 0
    ∧ extractCostUsd (Json.obj [("cost_usd", Json.num 5)]) = some 5
    ∧ costCombined (Json.obj [("cost_usd", Json.num 0)])
        (Json.obj [("cost_usd", Json.num 5)]) = some 5
    ∧ extractCostUsd (Json.obj [("cost_usd", Json.str "free")]) = none :=
  ⟨rfl, rfl, rfl, rfl⟩

/-- C5 (amended): each extractor returns the first value yielded by the
ordered candidate key paths over the payload and then its `data`
sub-object — absent exactly when no path yields a value (a present key
whose value is null or yields no number is skipped); and the combined
result prefers the result payload's value only when it is nonzero: a
zero or absent result-payload value falls back to the terminal-status
payload's value. -/
theorem cost_duration_first_match_and_combine :
    (∀ p : Json, extractCostUsd p = (probeCandidates costValue costPaths p).head?)
    ∧ (∀ p : Json,
        extractDurationMs p = (probeCandidates durationValue durationPaths p).head?)
    ∧ (∀ (r t : Json) (v : ℚ), extractCostUsd r = some v → v ≠ 0 →
        costCombined r t = some v)
    ∧ (∀ r t : Json, extractCostUsd r = some 0 ∨ extractCostUsd r = none →
        costCombined r t = extractCostUsd t)
    ∧ (∀ (r t : Json) (v : ℤ), extractDurationMs r = some v → v ≠ 0 →
        durationCombined r t = some v)
    ∧ (∀ r t : Json, extractDurationMs r = some 0 ∨ extractDurationMs r = none →
        durationCombined r t = extractDurationMs t) := by
  refine ⟨?_, ?_, ?_, ?_, ?_, ?_⟩
  · intro p
    exact extract_eq_head costValue costPaths p
  · intro p
    exact extract_eq_head durationValue durationPaths p
  · intro r t v hr hv
    unfold costCombined pyOrNum
    rw [hr]
    simp [hv]
  · intro r t hr
    unfold costCombined pyOrNum
    rcases hr with hr | hr <;> rw [hr] <;> simp
  · intro r t v hr hv
    unfold durationCombined pyOrNum
    rw [hr]
    simp [hv]
  · intro r t hr
    unfold durationCombined pyOrNum
    rcases hr with hr | hr <;> rw [hr] <;> simp

/-- Witness for the amended C5: a nonzero result-payload cost wins; a
zero result-payload cost falls back to the terminal payload; the
extractor follows candidate order (a string cost is parsed for its first
number). -/
theorem cost_duration_first_match_and_combine_witness :
    extractCostUsd (Json.obj [("usage", Json.obj [("cost", Json.str "$0.15")])])
      = (probeCandidates costValue costPaths
          (Json.obj [("usage", Json.obj [("cost", Json.str "$0.15")])])).head?
    ∧ costCombined (Json.obj [("cost", Json.num 2)])
        (Json.obj [("cost", Json.num 7)]) = some 2
    ∧ durationCombined (Json.obj [("duration_ms", Json.num 0)])
        (Json.obj [("duration_ms", Json.num 9)])
      = extractDurationMs (Json.obj [("duration_ms", Json.num 9)]) :=
  ⟨cost_duration_first_match_and_combine.1 _,
   cost_duration_first_match_and_combine.2.2.1 _ _ 2 rfl (by norm_num),
   cost_duration_first_match_and_combine.2.2.2.2.2 _ _ (Or.inl rfl)⟩

/-! ## Media type detection (filesystem.detect_type_and_ext) and
recursive media-URL extraction (server._extract_first_media_url) -/

/-- Everything after `://`, if present (scheme/netloc split of
`urllib.parse.urlparse`, specialized to the hierarchical URLs the
extractor sees). -/
def afterSchemeSep : List Char → Option (List Char)
  | ':' :: '/' :: '/' :: rest => some rest
  | _ :: rest => afterSchemeSep rest
  | [] => none

/-- `urlparse(url).path`: for `scheme://netloc/path?query#fragment`, the
segment between the netloc and the query/fragment; for scheme-less
strings, everything before the query/fragment. -/
def urlPath (url : String) : String :=
  match afterSchemeSep url.data with
  | some rest =>
    match rest.dropWhile (fun c => c ≠ '/' && c ≠ '?' && c ≠ '#') with
    | '/' :: tail => ⟨'/' :: tail.takeWhile (fun c => c ≠ '?' && c ≠ '#')⟩
    | _ => ""
  | none => ⟨url.data.takeWhile (fun c => c ≠ '?' && c ≠ '#')⟩

/-- Final path component (`PurePath.name` of the URL path). -/
def lastComponent (s : String) : String :=
  ⟨(s.data.reverse.takeWhile (fun c => c ≠ '/')).reverse⟩

/-- `EXT_TO_MEDIA` lookup (filesystem.py). -/
def extToMedia (ext : String) : String :=
  if ext = ".png" ∨ ext = ".jpg" ∨ ext = ".jpeg" ∨ ext = ".webp" then "image"
  else if ext = ".mp4" then "video"
  else if ext = ".mp3" ∨ ext = ".wav" ∨ ext = ".flac" then "audio"
  else "unknown"

/-- `CONTENT_TYPE_TO_EXT` lookup (filesystem.py). -/
def contentTypeToExt (ct : String) : Option String :=
  if ct = "image/png" then some ".png"
  else if ct = "image/jpeg" then some ".jpg"
  else if ct = "image/webp" then some ".webp"
  else if ct = "video/mp4" then some ".mp4"
  else if ct = "audio/mpeg" then some ".mp3"
  else if ct = "audio/wav" ∨ ct = "audio/x-wav" then some ".wav"
  else if ct = "audio/flac" then some ".flac"
  else none

/-- `detect_type_and_ext(url, content_type)`: the URL extension decides
when known; otherwise the content-type's base media type (parameters
stripped) is consulted; `(unknown, none)` when neither matches.  Python
truthiness: an empty content-type string counts as absent. -/
def detectTypeAndExt (url : String) (contentType : Option String) :
    String × Option String :=
  let ext := pyLower (nameSuffix (lastComponent (urlPath url)))
  let mediaType := extToMedia ext
  if mediaType ≠ "unknown" then (mediaType, some ext)
  else
    match contentType with
    | none => ("unknown", none)
    | some ct =>
      if ct = "" then ("unknown", none)
      else
        match contentTypeToExt (pyLower (pyStrip ⟨ct.data.takeWhile (fun c => c ≠ ';')⟩)) with
        | none => ("unknown", none)
        | some canonicalExt => (extToMedia canonicalExt, some canonicalExt)

/-- Does the URL's extension-detected media kind qualify
(`media_type in {"image", "video", "audio"}` in the selection loop)? -/
def isMediaUrl (u : String) : Bool :=
  let mk := (detectTypeAndExt u none).1
  mk = "image" || mk = "video" || mk = "audio"

/-- `payload.startswith("http://") or payload.startswith("https://")`. -/
def isHttpUrl (s : String) : Bool :=
  pyStartsWith s "http://" || pyStartsWith s "https://"

/-- The final selection over the collected candidate list: the first URL
with a recognized media extension, else the first URL, else none. -/
def pickUrl (urls : List String) : Option String :=
  match urls with
  | [] => none
  | _ =>
    match urls.find? isMediaUrl with
    | some u => some u
    | none => urls.head?

/-- `if found: urls.append(found)` — Python truthiness drops an empty
string (it never fires: candidates start with a scheme). -/
def guardNonempty : Option String → Option String
  | some s => if s = "" then none else some s
  | none => none

/-- The preferred media-bearing keys, in source order. -/
def preferredKeys : List String :=
  ["images", "videos", "audio", "url", "image", "video", "result", "output"]

/-- `server._extract_first_media_url`: recursively collect candidate URLs
(http(s)-prefixed strings), preferred keys first on dicts (`preferred in
payload` + `payload[preferred]`, embedded as the first field with that
key, found with its membership proof for termination), then every value
in field order, then list items in order; each subtree contributes its
own selected URL; finally pick the first media-typed candidate, else the
first candidate. -/
def extractFirstMediaUrl : Json → Option String
  | .str s => pickUrl (if isHttpUrl s then [s] else [])
  | .obj fields =>
      pickUrl
        ((preferredKeys.filterMap (fun k =>
            (fields.attach.find? (fun kv => kv.1.1 = k)).bind
              (fun kv => guardNonempty (extractFirstMediaUrl kv.1.2))))
         ++ fields.attach.filterMap (fun kv =>
              guardNonempty (extractFirstMediaUrl kv.1.2)))
  | .arr items =>
      pickUrl (items.attach.filterMap (fun it =>
          guardNonempty (extractFirstMediaUrl it.1)))
  | .null => pickUrl []
  | .bool _ => pickUrl []
  | .num _ => pickUrl []
termination_by j => sizeOf j
decreasing_by
  · have h1 := List.sizeOf_lt_of_mem kv.2
    obtain ⟨⟨k1, v1⟩, hm⟩ := kv
    simp at h1 ⊢
    omega
  · have h1 := List.sizeOf_lt_of_mem kv.2
    obtain ⟨⟨k1, v1⟩, hm⟩ := kv
    simp at h1 ⊢
    omega
  · have h1 := List.sizeOf_lt_of_mem it.2
    simp
    omega

/-- The flat, ordered list of candidate URLs the recursion discovers:
http(s) strings, preferred-key subtrees first on dicts, then every value
in field order (the code re-scans the preferred keys there too; the
duplicates never change a first-match selection), then list items in
order. -/
def allCandidateUrls : Json → List String
  | .str s => if isHttpUrl s then [s] else []
  | .obj fields =>
      (preferredKeys.flatMap (fun k =>
         ((fields.attach.find? (fun kv => kv.1.1 = k)).map
             (fun kv => allCandidateUrls kv.1.2)).getD []))
       ++ fields.attach.flatMap (fun kv => allCandidateUrls kv.1.2)
  | .arr items => items.attach.flatMap (fun it => allCandidateUrls it.1)
  | .null => []
  | .bool _ => []
  | .num _ => []
termination_by j => sizeOf j
decreasing_by
  · have h1 := List.sizeOf_lt_of_mem kv.2
    obtain ⟨⟨k1, v1⟩, hm⟩ := kv
    simp at h1 ⊢
    omega
  · have h1 := List.sizeOf_lt_of_mem kv.2
    obtain ⟨⟨k1, v1⟩, hm⟩ := kv
    simp at h1 ⊢
    omega
  · have h1 := List.sizeOf_lt_of_mem it.2
    simp
    omega

/-! ## Claim theorems: media-URL extraction -/

/-- `pickUrl` in find?/head? form. -/
lemma pickUrl_eq (l : List String) :
    pickUrl l = match l.find? isMediaUrl with
                | some u => some u
                | none => l.head? := by
  cases l with
  | nil => rfl
  | cons a t => rfl

/-- `pickUrl` returns nothing only on the empty list. -/
lemma pickUrl_eq_none {l : List String} (h : pickUrl l = none) : l = [] := by
  cases l with
  | nil => rfl
  | cons a t =>
    exfalso
    simp only [pickUrl] at h
    rcases hf : List.find? isMediaUrl (a :: t) with _ | u <;> rw [hf] at h <;>
      simp at h

/-- A selected URL is one of the candidates. -/
lemma pickUrl_mem {l : List String} {u : String} (h : pickUrl l = some u) :
    u ∈ l := by
  cases l with
  | nil => simp [pickUrl] at h
  | cons a t =>
    simp only [pickUrl] at h
    rcases hf : List.find? isMediaUrl (a :: t) with _ | w <;> rw [hf] at h
    · simp at h
      subst h
      exact List.mem_cons_self a t
    · simp at h
      subst h
      exact List.mem_of_find?_eq_some hf

/-- The Python-truthiness guard never drops a selected URL: candidates
start with an http(s) scheme, hence are nonempty. -/
lemma guard_pickUrl {l : List String} (hl : ∀ u ∈ l, isHttpUrl u = true) :
    guardNonempty (pickUrl l) = pickUrl l := by
  rcases hp : pickUrl l with _ | u
  · rfl
  · have hu := hl u (pickUrl_mem hp)
    have hne : ¬(u = "") := by
      intro h
      subst h
      exact absurd hu (by decide)
    simp [guardNonempty, hne]

/-- Per-block selection preserves the first media-typed candidate. -/
lemma find?_filterMap_pick :
    ∀ Ls : List (List String),
      (Ls.filterMap pickUrl).find? isMediaUrl = Ls.flatten.find? isMediaUrl := by
  intro Ls
  induction Ls with
  | nil => rfl
  | cons l Ls ih =>
    rw [List.filterMap_cons, List.flatten_cons, List.find?_append]
    rcases hp : pickUrl l with _ | r
    · dsimp only
      have hl : l = [] := pickUrl_eq_none hp
      subst hl
      simpa using ih
    · dsimp only
      rcases hf : l.find? isMediaUrl with _ | u
      · have hl : l.head? = some r := by
          rw [pickUrl_eq, hf] at hp
          exact hp
        have hmem : r ∈ l := by
          cases l with
          | nil => simp at hl
          | cons a t =>
            simp only [List.head?_cons, Option.some.injEq] at hl
            subst hl
            exact List.mem_cons_self a t
        have hqr : ¬(isMediaUrl r = true) := List.find?_eq_none.mp hf r hmem
        rw [List.find?_cons_of_neg _ hqr, ih, Option.none_or]
      · have hqu : isMediaUrl u = true := List.find?_some hf
        have hru : u = r := by
          rw [pickUrl_eq, hf] at hp
          simpa using hp
        subst hru
        rw [List.find?_cons_of_pos _ hqu]
        rfl

/-- When no candidate is media-typed, per-block selection preserves the
first candidate. -/
lemma head?_filterMap_pick :
    ∀ Ls : List (List String),
      Ls.flatten.find? isMediaUrl = none →
      (Ls.filterMap pickUrl).head? = Ls.flatten.head? := by
  intro Ls
  induction Ls with
  | nil => intro _; rfl
  | cons l Ls ih =>
    intro h
    rw [List.flatten_cons, List.find?_append] at h
    have h1 : l.find? isMediaUrl = none := by
      rcases hf : l.find? isMediaUrl with _ | u
      · rfl
      · rw [hf] at h
        exact absurd h (by simp [Option.or])
    have h2 : Ls.flatten.find? isMediaUrl = none := by
      rw [h1, Option.none_or] at h
      exact h
    rw [List.filterMap_cons, List.flatten_cons]
    rcases hp : pickUrl l with _ | r
    · dsimp only
      have hl : l = [] := pickUrl_eq_none hp
      subst hl
      simpa using ih h2
    · dsimp only
      have hl : l.head? = some r := by
        rw [pickUrl_eq, h1] at hp
        exact hp
      cases l with
      | nil => simp at hl
      | cons a t =>
        simp only [List.head?_cons, Option.some.injEq] at hl
        subst hl
        rfl

/-- Selecting among per-block selections equals selecting over the
concatenation of the blocks. -/
lemma pick_blocks (Ls : List (List String)) :
    pickUrl (Ls.filterMap pickUrl) = pickUrl Ls.flatten := by
  rw [pickUrl_eq, pickUrl_eq, find?_filterMap_pick]
  rcases hf : Ls.flatten.find? isMediaUrl with _ | u
  · dsimp only
    exact head?_filterMap_pick Ls hf
  · rfl

/-- Every discovered candidate starts with an http(s) scheme. -/
lemma allCandidateUrls_http :
    ∀ (j : Json), ∀ u ∈ allCandidateUrls j, isHttpUrl u = true := by
  intro j
  induction j using allCandidateUrls.induct with
  | case1 s hs =>
    intro u hu
    rw [allCandidateUrls, if_pos hs] at hu
    rcases List.mem_singleton.mp hu with rfl
    exact hs
  | case2 s hs =>
    intro u hu
    rw [allCandidateUrls, if_neg hs] at hu
    simp at hu
  | case3 fields ih =>
    intro u hu
    rw [allCandidateUrls] at hu
    rcases List.mem_append.mp hu with hu | hu
    · rcases List.mem_flatMap.mp hu with ⟨k, -, hk⟩
      rcases hf : fields.attach.find? (fun kv => kv.1.1 = k) with _ | kv
      · rw [hf] at hk
        simp at hk
      · rw [hf] at hk
        simp only [Option.map_some', Option.getD_some] at hk
        exact ih kv u hk
    · rcases List.mem_flatMap.mp hu with ⟨kv, -, hk⟩
      exact ih kv u hk
  | case4 items ih =>
    intro u hu
    rw [allCandidateUrls] at hu
    rcases List.mem_flatMap.mp hu with ⟨it, -, hk⟩
    exact ih it u hk
  | case5 => intro u hu; simp [allCandidateUrls] at hu
  | case6 b => intro u hu; simp [allCandidateUrls] at hu
  | case7 q => intro u hu; simp [allCandidateUrls] at hu

/-- The extractor equals selection over the full candidate list. -/
lemma extractFirstMediaUrl_eq_pick :
    ∀ j : Json, extractFirstMediaUrl j = pickUrl (allCandidateUrls j) := by
  intro j
  induction j using extractFirstMediaUrl.induct with
  | case1 s =>
    rw [extractFirstMediaUrl, allCandidateUrls]
  | case2 fields ih =>
    rw [extractFirstMediaUrl, allCandidateUrls]
    have hpf :
        (fun k => (fields.attach.find? (fun kv => kv.1.1 = k)).bind
            (fun kv => guardNonempty (extractFirstMediaUrl kv.1.2)))
          = fun k => pickUrl
              (((fields.attach.find? (fun kv => kv.1.1 = k)).map
                  (fun kv => allCandidateUrls kv.1.2)).getD []) := by
      funext k
      rcases hf : fields.attach.find? (fun kv => kv.1.1 = k) with _ | kv
      · rw [hf]
        rfl
      · rw [hf]
        simp only [Option.some_bind, Option.map_some', Option.getD_some]
        rw [ih kv, guard_pickUrl (allCandidateUrls_http kv.1.2)]
    have hvf :
        (fun kv : {x // x ∈ fields} =>
            guardNonempty (extractFirstMediaUrl kv.1.2))
          = fun kv : {x // x ∈ fields} => pickUrl (allCandidateUrls kv.1.2) := by
      funext kv
      rw [ih kv, guard_pickUrl (allCandidateUrls_http kv.1.2)]
    rw [hpf, hvf]
    rw [show (fun k => pickUrl
          (((fields.attach.find? (fun kv => kv.1.1 = k)).map
              (fun kv => allCandidateUrls kv.1.2)).getD []))
        = pickUrl ∘ (fun k =>
            ((fields.attach.find? (fun kv => kv.1.1 = k)).map
                (fun kv => allCandidateUrls kv.1.2)).getD []) from rfl]
    rw [show (fun kv : {x // x ∈ fields} => pickUrl (allCandidateUrls kv.1.2))
        = pickUrl ∘ (fun kv : {x // x ∈ fields} => allCandidateUrls kv.1.2) from rfl]
    rw [← List.filterMap_map, ← List.filterMap_map, ← List.filterMap_append,
      List.flatMap_def, List.flatMap_def, ← List.flatten_append]
    exact pick_blocks _
  | case3 items ih =>
    rw [extractFirstMediaUrl, allCandidateUrls]
    have hvf :
        (fun it : {x // x ∈ items} => guardNonempty (extractFirstMediaUrl it.1))
          = fun it : {x // x ∈ items} => pickUrl (allCandidateUrls it.1) := by
      funext it
      rw [ih it, guard_pickUrl (allCandidateUrls_http it.1)]
    rw [hvf]
    rw [show (fun it : {x // x ∈ items} => pickUrl (allCandidateUrls it.1))
        = pickUrl ∘ (fun it : {x // x ∈ items} => allCandidateUrls it.1) from rfl]
    rw [← List.filterMap_map, List.flatMap_def]
    exact pick_blocks _
  | case4 => rw [extractFirstMediaUrl, allCandidateUrls]
  | case5 b => rw [extractFirstMediaUrl, allCandidateUrls]
  | case6 q => rw [extractFirstMediaUrl, allCandidateUrls]

/-- C6: among all candidate URLs discovered by the recursive extraction
(http(s)-prefixed strings, preferred keys searched first on objects), the
function returns the first candidate whose URL-extension-detected media
kind is image, video or audio; when none qualifies, the first candidate
in traversal order; with no candidates at all, none. -/
theorem extractFirstMediaUrl_first_media_else_first (j : Json) :
    extractFirstMediaUrl j
      = match (allCandidateUrls j).find? isMediaUrl with
        | some u => some u
        | none => (allCandidateUrls j).head? := by
  rw [extractFirstMediaUrl_eq_pick j, pickUrl_eq]

section SmokeTests

example : statusValue (.obj [("status", .str "completed")]) = "COMPLETED" := by rfl

example :
    statusValue (.obj [("data", .obj [("state", .str "failed")]),
                       ("status", .str "COMPLETED")]) = "FAILED" := by rfl

example :
    (streamRun (fun s => if s = "ok" then some (.obj [("status", .str "COMPLETED")]) else none)
      ["data: ok", ""] ⟨[], none, []⟩).2
    = some (.obj [("status", .str "COMPLETED")]) := by rfl

example :
    streamJobStatus 200 (fun _ => none) ["data: bad", ""]
    = .error ⟨"SSE_UNAVAILABLE", none⟩ := by rfl

end SmokeTests
